import Mathlib

/-!
Verification of the poached SQL-introspection extension.

The SQL text is modelled as `List Char`.  Two independent comment-stripping
scanners exist in the repository: the C++ binding layer's
`SqlStripCommentsFunc` (src/parser.cpp) and the C binding layer's
`StripComments` (src/parser.c).  Both are single-pass scanners over four
lexical states; they are embedded below as structurally recursive functions,
one per source, each mirroring its source's branch order.
-/

/-- The four mutually exclusive lexical states of the comment strippers:
`normal`, `in_line_comment`, `in_block_comment`, `in_string(quote_char)`. -/
inductive ScanState where
  | normal
  | lineComment
  | blockComment
  | inString (q : Char)
deriving DecidableEq

open ScanState

/-- Embedding of the scanner loop of `SqlStripCommentsFunc` (src/parser.cpp,
lines 705-770).  Each match arm consumes the characters the C++ loop consumes
at index `i` (one character, or two when the source does `i++`), in the exact
order the C++ code tests its conditions: inside `normal`, the line-comment
start `--` is checked first, then the block-comment start, then a string
quote, and otherwise the character is copied. -/
def SqlStripCommentsScan : ScanState → List Char → List Char
  | _, [] => []
  | lineComment, c :: rest =>
      if c = '\n' then c :: SqlStripCommentsScan normal rest
      else SqlStripCommentsScan lineComment rest
  | blockComment, _ :: [] => []
  | blockComment, c :: d :: rest =>
      if c = '*' ∧ d = '/' then SqlStripCommentsScan normal rest
      else SqlStripCommentsScan blockComment (d :: rest)
  | inString _, c :: [] => [c]
  | inString q, c :: d :: rest =>
      if c = q then
        if d = q then c :: d :: SqlStripCommentsScan (inString q) rest
        else c :: SqlStripCommentsScan normal (d :: rest)
      else c :: SqlStripCommentsScan (inString q) (d :: rest)
  | normal, c :: [] => [c]
  | normal, c :: d :: rest =>
      if c = '-' ∧ d = '-' then SqlStripCommentsScan lineComment rest
      else if c = '/' ∧ d = '*' then SqlStripCommentsScan blockComment rest
      else if c = '\'' ∨ c = '"' then c :: SqlStripCommentsScan (inString c) (d :: rest)
      else c :: SqlStripCommentsScan normal (d :: rest)

/-- `sql_strip_comments` of the C++ binding layer: the scan started in the
`normal` state on the whole input. -/
def SqlStripComments (s : List Char) : List Char :=
  SqlStripCommentsScan normal s

/-- Embedding of `StripComments` (src/parser.c, lines 1067-1115).  Identical
states and transitions, but in the `normal` state the C code tests for a
string quote before the two comment starts. -/
def StripCommentsScan : ScanState → List Char → List Char
  | _, [] => []
  | lineComment, c :: rest =>
      if c = '\n' then c :: StripCommentsScan normal rest
      else StripCommentsScan lineComment rest
  | blockComment, _ :: [] => []
  | blockComment, c :: d :: rest =>
      if c = '*' ∧ d = '/' then StripCommentsScan normal rest
      else StripCommentsScan blockComment (d :: rest)
  | inString _, c :: [] => [c]
  | inString q, c :: d :: rest =>
      if c = q then
        if d = q then c :: d :: StripCommentsScan (inString q) rest
        else c :: StripCommentsScan normal (d :: rest)
      else c :: StripCommentsScan (inString q) (d :: rest)
  | normal, c :: [] => [c]
  | normal, c :: d :: rest =>
      if c = '\'' ∨ c = '"' then c :: StripCommentsScan (inString c) (d :: rest)
      else if c = '-' ∧ d = '-' then StripCommentsScan lineComment rest
      else if c = '/' ∧ d = '*' then StripCommentsScan blockComment rest
      else c :: StripCommentsScan normal (d :: rest)

/-- `sql_strip_comments` of the C binding layer. -/
def StripComments (s : List Char) : List Char :=
  StripCommentsScan normal s

/-- Whether the two-character block-comment opener occurs in the text. -/
def hasBlockOpen : List Char → Bool
  | [] => false
  | _ :: [] => false
  | c :: d :: rest => (c = '/' ∧ d = '*' : Bool) || hasBlockOpen (d :: rest)

example : SqlStripComments ['-', '/', '*', '*', '/', '-'] = ['-', '-'] := by decide
example : SqlStripComments ['-', '-'] = [] := by decide
example : StripComments ['-', '/', '*', '*', '/', '-'] = ['-', '-'] := by decide
example :
    SqlStripComments ['S', 'E', 'L', ' ', '\'', '-', '-', 'x', '\''] =
      ['S', 'E', 'L', ' ', '\'', '-', '-', 'x', '\''] := by decide
example : hasBlockOpen ['a', '/', '*'] = true := by decide
example : hasBlockOpen ['a', '/', 'b', '*'] = false := by decide

/-! Small step equations for the scanners, phrased with the branch conditions
as hypotheses so the induction proofs can rewrite one transition at a time. -/

theorem scanNormal_one (c : Char) : SqlStripCommentsScan normal [c] = [c] := rfl

theorem scanNormal_line {c d : Char} (rest : List Char) (h : c = '-' ∧ d = '-') :
    SqlStripCommentsScan normal (c :: d :: rest) = SqlStripCommentsScan lineComment rest := by
  simp [SqlStripCommentsScan, h]

theorem scanNormal_block {c d : Char} (rest : List Char) (h2 : c = '/' ∧ d = '*') :
    SqlStripCommentsScan normal (c :: d :: rest) = SqlStripCommentsScan blockComment rest := by
  simp [SqlStripCommentsScan, h2]

theorem quote_ne {c : Char} (h : c = '\'' ∨ c = '"') : c ≠ '-' ∧ c ≠ '/' ∧ c ≠ '\n' := by
  rcases h with rfl | rfl <;> exact ⟨by decide, by decide, by decide⟩

theorem scanNormal_quote {c d : Char} (rest : List Char) (h : c = '\'' ∨ c = '"') :
    SqlStripCommentsScan normal (c :: d :: rest) =
      c :: SqlStripCommentsScan (inString c) (d :: rest) := by
  have hc := quote_ne h
  have h1 : ¬(c = '-' ∧ d = '-') := fun hx => hc.1 hx.1
  have h2 : ¬(c = '/' ∧ d = '*') := fun hx => hc.2.1 hx.1
  simp [SqlStripCommentsScan, h1, h2, h]

theorem scanNormal_copy {c d : Char} (rest : List Char) (h1 : ¬(c = '-' ∧ d = '-'))
    (h2 : ¬(c = '/' ∧ d = '*')) (h3 : ¬(c = '\'' ∨ c = '"')) :
    SqlStripCommentsScan normal (c :: d :: rest) =
      c :: SqlStripCommentsScan normal (d :: rest) := by
  simp [SqlStripCommentsScan, h1, h2, h3]

theorem scanLine_nl {c : Char} (rest : List Char) (h : c = '\n') :
    SqlStripCommentsScan lineComment (c :: rest) = c :: SqlStripCommentsScan normal rest := by
  simp [SqlStripCommentsScan, h]

theorem scanLine_skip {c : Char} (rest : List Char) (h : ¬ c = '\n') :
    SqlStripCommentsScan lineComment (c :: rest) = SqlStripCommentsScan lineComment rest := by
  simp [SqlStripCommentsScan, h]

theorem scanString_one (q c : Char) : SqlStripCommentsScan (inString q) [c] = [c] := rfl

theorem scanString_esc {q c d : Char} (rest : List Char) (h1 : c = q) (h2 : d = q) :
    SqlStripCommentsScan (inString q) (c :: d :: rest) =
      c :: d :: SqlStripCommentsScan (inString q) rest := by
  simp [SqlStripCommentsScan, h1, h2]

theorem scanString_close {q c d : Char} (rest : List Char) (h1 : c = q) (h2 : ¬ d = q) :
    SqlStripCommentsScan (inString q) (c :: d :: rest) =
      c :: SqlStripCommentsScan normal (d :: rest) := by
  simp [SqlStripCommentsScan, h1, h2]

theorem scanString_copy {q c d : Char} (rest : List Char) (h1 : ¬ c = q) :
    SqlStripCommentsScan (inString q) (c :: d :: rest) =
      c :: SqlStripCommentsScan (inString q) (d :: rest) := by
  simp [SqlStripCommentsScan, h1]

/-! The C scanner and the C++ scanner agree: in the `normal` state the three
guarded transitions are mutually exclusive (a quote character is neither `-`
nor `/`), so testing the string quote first or last makes no difference. -/

theorem stripScan_agree : ∀ (n : Nat) (s : List Char), s.length ≤ n → ∀ st,
    StripCommentsScan st s = SqlStripCommentsScan st s := by
  intro n
  induction n with
  | zero =>
    intro s hs st
    have hnil : s = [] := List.length_eq_zero.mp (Nat.le_zero.mp hs)
    subst hnil
    cases st <;> rfl
  | succ n ih =>
    intro s hs st
    match s with
    | [] => cases st <;> rfl
    | [c] =>
      cases st <;> simp [StripCommentsScan, SqlStripCommentsScan]
    | c :: d :: rest =>
      have hr : rest.length ≤ n := by
        simp only [List.length_cons] at hs; omega
      have hdr : (d :: rest).length ≤ n := by
        simp only [List.length_cons] at hs ⊢; omega
      cases st with
      | lineComment =>
        by_cases h : c = '\n' <;>
          simp [StripCommentsScan, SqlStripCommentsScan, h, ih _ hr, ih _ hdr]
      | blockComment =>
        by_cases h : c = '*' ∧ d = '/' <;>
          simp [StripCommentsScan, SqlStripCommentsScan, h, ih _ hr, ih _ hdr]
      | inString q =>
        by_cases h1 : c = q
        · by_cases h2 : d = q <;>
            simp [StripCommentsScan, SqlStripCommentsScan, h1, h2, ih _ hr, ih _ hdr]
        · simp [StripCommentsScan, SqlStripCommentsScan, h1, ih _ hdr]
      | normal =>
        by_cases h3 : c = '\'' ∨ c = '"'
        · have hc := quote_ne h3
          have h1 : ¬(c = '-' ∧ d = '-') := fun hx => hc.1 hx.1
          have h2 : ¬(c = '/' ∧ d = '*') := fun hx => hc.2.1 hx.1
          simp [StripCommentsScan, SqlStripCommentsScan, h1, h2, h3, ih _ hdr]
        · by_cases h1 : c = '-' ∧ d = '-'
          · simp [StripCommentsScan, SqlStripCommentsScan, h1, h3, ih _ hr]
          · by_cases h2 : c = '/' ∧ d = '*' <;>
              simp [StripCommentsScan, SqlStripCommentsScan, h1, h2, h3, ih _ hr, ih _ hdr]

theorem hasBlockOpen_cons {c d : Char} {rest : List Char}
    (h : hasBlockOpen (c :: d :: rest) = false) :
    ¬(c = '/' ∧ d = '*') ∧ hasBlockOpen (d :: rest) = false := by
  simp [hasBlockOpen] at h
  exact ⟨fun hx => (h.1 hx.1) hx.2, h.2⟩

theorem hasBlockOpen_tail {c : Char} {t : List Char} (h : hasBlockOpen (c :: t) = false) :
    hasBlockOpen t = false := by
  match t with
  | [] => rfl
  | d :: rest => exact (hasBlockOpen_cons h).2

/-- The output of the line-comment state starts with the preserved newline,
or is empty (an unterminated line comment discards the rest of the input). -/
theorem scanLine_head (s : List Char) :
    (SqlStripCommentsScan lineComment s).head? = some '\n' ∨
      (SqlStripCommentsScan lineComment s).head? = none := by
  induction s with
  | nil => right; rfl
  | cons c rest ih =>
    by_cases h : c = '\n'
    · left; rw [scanLine_nl rest h, h]; rfl
    · rw [scanLine_skip rest h]; exact ih

/-- On block-comment-free input, the `normal` state either copies the first
input character first, or begins with a preserved newline, or emits nothing. -/
theorem scanNormal_head (s : List Char) (hb : hasBlockOpen s = false) :
    (SqlStripCommentsScan normal s).head? = s.head? ∨
      (SqlStripCommentsScan normal s).head? = some '\n' ∨
      (SqlStripCommentsScan normal s).head? = none := by
  match s with
  | [] => right; right; rfl
  | [c] => left; rfl
  | c :: d :: rest =>
    have hcons := hasBlockOpen_cons hb
    by_cases h1 : c = '-' ∧ d = '-'
    · rw [scanNormal_line rest h1]
      rcases scanLine_head rest with h | h
      · right; left; exact h
      · right; right; exact h
    · by_cases h3 : c = '\'' ∨ c = '"'
      · left; rw [scanNormal_quote rest h3]; rfl
      · left; rw [scanNormal_copy rest h1 hcons.1 h3]; rfl

/-- Key stability lemma for idempotence: on block-comment-free input the
output of a scan started in `normal`, `lineComment`, or `inString q` is left
unchanged by a second scan started in the state the second pass reaches at
that point (`normal` for the two comment states, `inString q` for the string
state). -/
theorem scan_rescan : ∀ (n : Nat) (s : List Char), s.length ≤ n →
    hasBlockOpen s = false →
    (SqlStripCommentsScan normal (SqlStripCommentsScan normal s) =
        SqlStripCommentsScan normal s)
    ∧ (SqlStripCommentsScan normal (SqlStripCommentsScan lineComment s) =
        SqlStripCommentsScan lineComment s)
    ∧ (∀ q, q ≠ '\n' →
        SqlStripCommentsScan (inString q) (SqlStripCommentsScan (inString q) s) =
          SqlStripCommentsScan (inString q) s) := by
  intro n
  induction n with
  | zero =>
    intro s hs _
    have hnil : s = [] := List.length_eq_zero.mp (Nat.le_zero.mp hs)
    subst hnil
    exact ⟨rfl, rfl, fun _ _ => rfl⟩
  | succ n ih =>
    intro s hs hb
    match s with
    | [] => exact ⟨rfl, rfl, fun _ _ => rfl⟩
    | [c] =>
      refine ⟨rfl, ?_, fun q hq => rfl⟩
      by_cases h : c = '\n'
      · rw [scanLine_nl [] h]; rfl
      · rw [scanLine_skip [] h]; rfl
    | c :: d :: rest =>
      have hr : rest.length ≤ n := by simp only [List.length_cons] at hs; omega
      have hdr : (d :: rest).length ≤ n := by simp only [List.length_cons] at hs ⊢; omega
      have hcons := hasBlockOpen_cons hb
      have hbd : hasBlockOpen (d :: rest) = false := hcons.2
      have hbr : hasBlockOpen rest = false := hasBlockOpen_tail hbd
      refine ⟨?_, ?_, ?_⟩
      · -- normal state
        by_cases h1 : c = '-' ∧ d = '-'
        · rw [scanNormal_line rest h1]
          exact (ih rest hr hbr).2.1
        · by_cases h3 : c = '\'' ∨ c = '"'
          · rw [scanNormal_quote rest h3]
            have hX := (ih (d :: rest) hdr hbd).2.2 c (quote_ne h3).2.2
            cases hXshape : SqlStripCommentsScan (inString c) (d :: rest) with
            | nil => rfl
            | cons x X2 =>
              rw [scanNormal_quote X2 h3, ← hXshape, hX]
          · rw [scanNormal_copy rest h1 hcons.1 h3]
            have hX := (ih (d :: rest) hdr hbd).1
            cases hXshape : SqlStripCommentsScan normal (d :: rest) with
            | nil => rfl
            | cons x X2 =>
              have hxd : x = d ∨ x = '\n' := by
                rcases scanNormal_head (d :: rest) hbd with hh | hh | hh
                · left; rw [hXshape] at hh; simp at hh; exact hh
                · right; rw [hXshape] at hh; simp at hh; exact hh
                · rw [hXshape] at hh; simp at hh
              have hx1 : ¬(c = '-' ∧ x = '-') := by
                rintro ⟨rfl, hx⟩
                rcases hxd with h | h
                · exact h1 ⟨rfl, by rw [← h, hx]⟩
                · rw [h] at hx; exact absurd hx (by decide)
              have hx2 : ¬(c = '/' ∧ x = '*') := by
                rintro ⟨rfl, hx⟩
                rcases hxd with h | h
                · exact hcons.1 ⟨rfl, by rw [← h, hx]⟩
                · rw [h] at hx; exact absurd hx (by decide)
              rw [scanNormal_copy X2 hx1 hx2 h3, ← hXshape, hX]
      · -- line-comment state
        by_cases h : c = '\n'
        · rw [scanLine_nl (d :: rest) h]
          subst h
          have hX := (ih (d :: rest) hdr hbd).1
          cases hXshape : SqlStripCommentsScan normal (d :: rest) with
          | nil => rfl
          | cons x X2 =>
            have hx1 : ¬(('\n' : Char) = '-' ∧ x = '-') := fun hh => absurd hh.1 (by decide)
            have hx2 : ¬(('\n' : Char) = '/' ∧ x = '*') := fun hh => absurd hh.1 (by decide)
            have hx3 : ¬(('\n' : Char) = '\'' ∨ ('\n' : Char) = '"') := by decide
            rw [scanNormal_copy X2 hx1 hx2 hx3, ← hXshape, hX]
        · rw [scanLine_skip (d :: rest) h]
          exact (ih (d :: rest) hdr hbd).2.1
      · -- in-string state
        intro q hq
        by_cases h1 : c = q
        · by_cases h2 : d = q
          · rw [scanString_esc rest h1 h2,
              scanString_esc (SqlStripCommentsScan (inString q) rest) h1 h2,
              (ih rest hr hbr).2.2 q hq]
          · rw [scanString_close rest h1 h2]
            have hX := (ih (d :: rest) hdr hbd).1
            cases hXshape : SqlStripCommentsScan normal (d :: rest) with
            | nil => rfl
            | cons x X2 =>
              have hxq : ¬ x = q := by
                rcases scanNormal_head (d :: rest) hbd with hh | hh | hh
                · rw [hXshape] at hh; simp at hh; rw [hh]; exact h2
                · rw [hXshape] at hh; simp at hh; rw [hh]
                  intro hq2; exact hq hq2.symm
                · rw [hXshape] at hh; simp at hh
              rw [scanString_close X2 h1 hxq, ← hXshape, hX]
        · rw [scanString_copy rest h1]
          have hX := (ih (d :: rest) hdr hbd).2.2 q hq
          cases hXshape : SqlStripCommentsScan (inString q) (d :: rest) with
          | nil => rfl
          | cons x X2 =>
            rw [scanString_copy X2 h1, ← hXshape, hX]

/-- C1 counterexample: `strip_comments` is NOT idempotent.  On a dash, an
empty block comment, and a dash, the block comment is removed and the two
surrounding `-` characters become adjacent, so the first pass returns `--`,
which a second pass then removes as a line comment. -/
theorem C1_counterexample :
    ¬ (SqlStripComments (SqlStripComments ['-', '/', '*', '*', '/', '-']) =
        SqlStripComments ['-', '/', '*', '*', '/', '-']) := by decide

/-- C1 (amended): `strip_comments` is idempotent on every input in which the
two-character block-comment opener `/*` does not occur:
`strip_comments(strip_comments(T)) == strip_comments(T)` for such `T`. -/
theorem C1_strip_comments_idempotent (s : List Char) (h : hasBlockOpen s = false) :
    SqlStripComments (SqlStripComments s) = SqlStripComments s :=
  (scan_rescan s.length s le_rfl h).1

/-- Witness for C1: the amended idempotence instantiated on a concrete
block-comment-free input containing a line comment and a string literal. -/
theorem C1_witness :
    hasBlockOpen ['a', '-', '-', 'b', '\n', '\'', '-', '-', '\'', 'c'] = false ∧
      SqlStripComments
          (SqlStripComments ['a', '-', '-', 'b', '\n', '\'', '-', '-', '\'', 'c']) =
        SqlStripComments ['a', '-', '-', 'b', '\n', '\'', '-', '-', '\'', 'c'] :=
  ⟨by decide, C1_strip_comments_idempotent ['a', '-', '-', 'b', '\n', '\'', '-', '-', '\'', 'c']
      (by decide)⟩

/-- C3: while in the `in_string(q)` state the scanner copies every character
verbatim; a matching quote immediately followed by the same character is an
escaped quote (both copied, state unchanged); a matching quote not doubled
exits to `normal` (the quote itself still copied); and in particular
`strip_comments` leaves `SELECT '--not a comment'` untouched. -/
theorem C3_string_literal_verbatim :
    (∀ (q c : Char) (rest : List Char), ¬ c = q →
        SqlStripCommentsScan (inString q) (c :: rest) =
          c :: SqlStripCommentsScan (inString q) rest)
    ∧ (∀ (q : Char) (rest : List Char),
        SqlStripCommentsScan (inString q) (q :: q :: rest) =
          q :: q :: SqlStripCommentsScan (inString q) rest)
    ∧ (∀ (q c : Char) (rest : List Char), ¬ c = q →
        SqlStripCommentsScan (inString q) (q :: c :: rest) =
          q :: SqlStripCommentsScan normal (c :: rest))
    ∧ SqlStripComments
          ['S', 'E', 'L', 'E', 'C', 'T', ' ', '\'', '-', '-', 'n', 'o', 't', ' ',
            'a', ' ', 'c', 'o', 'm', 'm', 'e', 'n', 't', '\''] =
        ['S', 'E', 'L', 'E', 'C', 'T', ' ', '\'', '-', '-', 'n', 'o', 't', ' ',
          'a', ' ', 'c', 'o', 'm', 'm', 'e', 'n', 't', '\''] := by
  refine ⟨?_, ?_, ?_, by decide⟩
  · intro q c rest h
    match rest with
    | [] => rfl
    | d :: rest2 => exact scanString_copy rest2 h
  · intro q rest
    exact scanString_esc rest rfl rfl
  · intro q c rest h
    exact scanString_close rest rfl h

/-- Witness for C3: the three in-string transition rules applied at concrete
characters (copy a non-quote, keep a doubled quote, close on a lone quote). -/
theorem C3_witness :
    SqlStripCommentsScan (inString '\'') ['a', 'b'] =
        'a' :: SqlStripCommentsScan (inString '\'') ['b']
    ∧ SqlStripCommentsScan (inString '\'') ['\'', '\'', 'x'] =
        '\'' :: '\'' :: SqlStripCommentsScan (inString '\'') ['x']
    ∧ SqlStripCommentsScan (inString '\'') ['\'', 'x'] =
        '\'' :: SqlStripCommentsScan normal ['x'] :=
  ⟨C3_string_literal_verbatim.1 '\'' 'a' ['b'] (by decide),
    C3_string_literal_verbatim.2.1 '\'' ['x'],
    C3_string_literal_verbatim.2.2.1 '\'' 'x' [] (by decide)⟩

/-- C10: the C++ binding layer's `sql_strip_comments` scanner and the C
binding layer's `StripComments` produce exactly the same output on every
input, despite testing string-quote starts and comment starts in opposite
orders in the `normal` state. -/
theorem C10_strippers_equivalent (s : List Char) : StripComments s = SqlStripComments s :=
  stripScan_agree s.length s le_rfl normal

/-!
AST embedding for the tree extractors (src/parser.cpp).

The parsed-AST shapes are embedded as inductives restricted to the node
kinds the extractors dispatch on.  A null pointer is the explicit
constructor `nullExpr` / `nullNode` / `nullRef`, matching the `if (!x)
return;` guards of the source.  External renderings that the source obtains
from DuckDB are carried as data: `columnRef` carries `column_names` (whose
`GetColumnName()` is the last path component), `constantExpr` carries the
`value.ToString()` rendering of its constant, and the `ToString()` of an
arbitrary expression is abstracted as an explicit `render` argument where
the source calls it.
-/

/-- Comparison expression kinds dispatched by `ComparisonTypeToOperator`
(src/parser.cpp 585-597); `otherComp` stands for every other comparison
`ExpressionType`, which the source maps through the `default` arm. -/
inductive CompKind where
  | eq
  | notEq
  | lt
  | gt
  | le
  | ge
  | isIn
  | notIn
  | otherComp
deriving DecidableEq

mutual
/-- Embedding of duckdb `ParsedExpression` restricted to the constructors
the extractors dispatch on; every constructor carries the base-class
`alias` field first.  `otherExpr` covers every other expression kind (star,
cast, window, subquery-expression, ...), with a tag to tell instances
apart. -/
inductive ParsedExpression where
  | nullExpr
  | functionExpr (aliasName schemaName functionName : String)
      (isOperator distinctFlag : Bool) (children : ExprList)
  | columnRef (aliasName : String) (columnNames : List String)
  | constantExpr (aliasName valueString : String)
  | comparisonExpr (aliasName : String) (ckind : CompKind)
      (left right : ParsedExpression)
  | conjunctionExpr (aliasName : String) (isAnd : Bool) (children : ExprList)
  | otherExpr (aliasName tag : String)

/-- Argument/child lists, kept as a dedicated inductive so all the
extractors are structurally recursive. -/
inductive ExprList where
  | nil
  | cons (e : ParsedExpression) (rest : ExprList)
end

mutual
/-- Embedding of duckdb `QueryNode`: a `SELECT_NODE` with the clauses the
extractors read, or any other node kind; every node carries its `cte_map`. -/
inductive QueryNode where
  | nullNode
  | selectNode (selectList : List ParsedExpression) (fromTable : TableRef)
      (whereClause : ParsedExpression)
      (groupExpressions : List ParsedExpression) (cteMap : CTEList)
  | otherNode (cteMap : CTEList)

/-- The entries of a `cte_map`, each collapsed to the query node reached by
the `cte.second->query->node` chain (`nullNode` when any link is null). -/
inductive CTEList where
  | nil
  | cons (query : QueryNode) (rest : CTEList)

/-- Embedding of duckdb `TableRef` restricted to the reference types
`ExtractTablesFromTableRef` dispatches on.  A `tableFunctionRef` carries
`(schema, function_name)` of its `FunctionExpression` when `func.function`
is non-null. -/
inductive TableRef where
  | nullRef
  | baseTable (schemaName tableName : String)
  | joinRef (left right : TableRef)
  | subqueryRef (node : QueryNode)
  | tableFunctionRef (fn : Option (String × String))
  | otherRef
end

/-- One extracted table reference (struct `ExtractedTable`,
src/parser.cpp 273-277). -/
structure ExtractedTable where
  schema : String
  table : String
  context : String
deriving DecidableEq

mutual
/-- Embedding of `ExtractTablesFromQueryNode` (src/parser.cpp 281-297): a
SELECT node contributes its FROM clause with context "FROM", then every
node walks its CTE definitions once. -/
def ExtractTablesFromQueryNode : QueryNode → List ExtractedTable
  | .nullNode => []
  | .selectNode _ fromTable _ _ cteMap =>
      ExtractTablesFromTableRef fromTable "FROM" ++ ExtractTablesFromCTEs cteMap
  | .otherNode cteMap => ExtractTablesFromCTEs cteMap

/-- The `for (auto &cte : node->cte_map.map)` loop of
`ExtractTablesFromQueryNode`. -/
def ExtractTablesFromCTEs : CTEList → List ExtractedTable
  | .nil => []
  | .cons q rest => ExtractTablesFromQueryNode q ++ ExtractTablesFromCTEs rest

/-- Embedding of `ExtractTablesFromTableRef` (src/parser.cpp 299-340). -/
def ExtractTablesFromTableRef : TableRef → String → List ExtractedTable
  | .nullRef, _ => []
  | .baseTable sch tbl, ctx => [⟨sch, tbl, ctx⟩]
  | .joinRef left right, ctx =>
      ExtractTablesFromTableRef left ctx ++ ExtractTablesFromTableRef right "JOIN"
  | .subqueryRef node, _ => ExtractTablesFromQueryNode node
  | .tableFunctionRef fn, _ =>
      match fn with
      | some (sch, name) => [⟨sch, name, "TABLE_FUNCTION"⟩]
      | none => []
  | .otherRef, _ => []
end

/-- One extracted function call (struct `FunctionRef`,
src/parser.cpp 443-446). -/
structure FunctionRef where
  name : String
  ftype : String
deriving DecidableEq

mutual
/-- Embedding of `ExtractFunctionsFromExpression` (src/parser.cpp 448-462):
only a node whose type is `FUNCTION` emits a record, classified by
`is_operator` then `distinct`, and only a function node's own argument list
is recursed into — every other node kind contributes nothing. -/
def ExtractFunctionsFromExpression : ParsedExpression → List FunctionRef
  | .functionExpr _ _ fname isOp dist children =>
      ⟨fname, if isOp then "operator" else if dist then "aggregate" else "scalar"⟩ ::
        ExtractFunctionsFromExprList children
  | _ => []

/-- The argument loop of `ExtractFunctionsFromExpression`. -/
def ExtractFunctionsFromExprList : ExprList → List FunctionRef
  | .nil => []
  | .cons e rest =>
      ExtractFunctionsFromExpression e ++ ExtractFunctionsFromExprList rest
end

/-- The `for` loops over `select_list` / `group_expressions` in
`ExtractFunctionsFromQueryNode`. -/
def ExtractFunctionsFromList : List ParsedExpression → List FunctionRef
  | [] => []
  | e :: rest => ExtractFunctionsFromExpression e ++ ExtractFunctionsFromList rest

/-- Embedding of `ExtractFunctionsFromQueryNode` (src/parser.cpp 464-479):
on a SELECT node, scan the select list, then the WHERE clause, then the
GROUP BY expressions; other node kinds contribute nothing. -/
def ExtractFunctionsFromQueryNode : QueryNode → List FunctionRef
  | .selectNode sl _ wc groups _ =>
      ExtractFunctionsFromList sl ++ ExtractFunctionsFromExpression wc ++
        ExtractFunctionsFromList groups
  | _ => []

/-- `ColumnRefExpression::GetColumnName()`: the last component of the
column path (DuckDB helper used by the source). -/
def GetColumnName (columnNames : List String) : String :=
  columnNames.getLastD ""

/-- One extracted WHERE condition (struct `WhereCondition`,
src/parser.cpp 579-583). -/
structure WhereCondition where
  column_name : String
  op : String
  value : String
deriving DecidableEq

/-- Embedding of `ComparisonTypeToOperator` (src/parser.cpp 585-597). -/
def ComparisonTypeToOperator : CompKind → String
  | .eq => "="
  | .notEq => "!="
  | .lt => "<"
  | .gt => ">"
  | .le => "<="
  | .ge => ">="
  | .isIn => "IN"
  | .notIn => "NOT IN"
  | .otherComp => "?"

mutual
/-- Embedding of `ExtractWhereConditions` (src/parser.cpp 599-633): AND/OR
conjunctions recurse into both children without emitting a record; a
comparison node emits exactly one record whose column is the left operand's
column name when it is a column reference (else its `render`), and whose
value is the right operand's constant rendering when it is a constant (else
its `render`); every other node kind emits nothing. -/
def ExtractWhereConditions (render : ParsedExpression → String) :
    ParsedExpression → List WhereCondition
  | .conjunctionExpr _ _ children => ExtractWhereFromList render children
  | .comparisonExpr _ ck left right =>
      let cname : String :=
        match left with
        | .columnRef _ names => GetColumnName names
        | .nullExpr => ""
        | e => render e
      let v : String :=
        match right with
        | .constantExpr _ s => s
        | .nullExpr => ""
        | e => render e
      [⟨cname, ComparisonTypeToOperator ck, v⟩]
  | _ => []

/-- The conjunction-children loop of `ExtractWhereConditions`. -/
def ExtractWhereFromList (render : ParsedExpression → String) :
    ExprList → List WhereCondition
  | .nil => []
  | .cons e rest =>
      ExtractWhereConditions render e ++ ExtractWhereFromList render rest
end

/-- The base-class `alias` field of a parsed expression (empty for a null
pointer, where the source returns before reading it). -/
def exprAlias : ParsedExpression → String
  | .nullExpr => ""
  | .functionExpr a _ _ _ _ _ => a
  | .columnRef a _ => a
  | .constantExpr a _ => a
  | .comparisonExpr a _ _ _ => a
  | .conjunctionExpr a _ _ => a
  | .otherExpr a _ => a

/-- Embedding of `ExtractColumnNames` (src/parser.cpp 785-810): nothing for
a null expression, else the explicit alias, else a column reference's
column name, else a function's name, else the synthesized `"col" ++ index`. -/
def ExtractColumnNames : ParsedExpression → Nat → List String
  | .nullExpr, _ => []
  | e, index =>
      if exprAlias e ≠ "" then [exprAlias e]
      else
        match e with
        | .columnRef _ names => [GetColumnName names]
        | .functionExpr _ _ fname _ _ _ => [fname]
        | _ => ["col" ++ toString index]

/-- The indexed loop of `ParseColumnsBind` (src/parser.cpp 829-831). -/
def ParseColumnsLoop : List ParsedExpression → Nat → List String
  | [], _ => []
  | e :: rest, i => ExtractColumnNames e i ++ ParseColumnsLoop rest (i + 1)

/-- The column names produced for a SELECT list by `ParseColumnsBind`. -/
def ParseColumnsNames (selectList : List ParsedExpression) : List String :=
  ParseColumnsLoop selectList 0

/-- Whether the expression node's type is `FUNCTION`. -/
def isFunctionExpr : ParsedExpression → Bool
  | .functionExpr .. => true
  | _ => false

/-- Whether the expression is the null pointer. -/
def isNullExpr : ParsedExpression → Bool
  | .nullExpr => true
  | _ => false

/-- C2 counterexample: in `SELECT a FROM t WHERE f(x) > 1` the call `f(x)`
is an operand of the comparison in the WHERE predicate, yet the function
extractor reports nothing at all — `ExtractFunctionsFromExpression` recurses
only into a function node's own arguments, never into a comparison's
operands, refuting the claim that every nested call yields a record. -/
theorem C2_counterexample :
    ExtractFunctionsFromQueryNode
        (.selectNode [.columnRef "" ["a"]] (.baseTable "" "t")
          (.comparisonExpr "" .gt
            (.functionExpr "" "" "f" false false (.cons (.columnRef "" ["x"]) .nil))
            (.constantExpr "" "1"))
          [] .nil) = []
    ∧ ¬ (⟨"f", "scalar"⟩ ∈ ExtractFunctionsFromQueryNode
        (.selectNode [.columnRef "" ["a"]] (.baseTable "" "t")
          (.comparisonExpr "" .gt
            (.functionExpr "" "" "f" false false (.cons (.columnRef "" ["x"]) .nil))
            (.constantExpr "" "1"))
          [] .nil)) := by
  exact ⟨rfl, by decide⟩

/-- C2 (amended): the function extractor walks the SELECT-list expressions,
the WHERE predicate, and the GROUP BY expressions, and emits one
FunctionReference per function-call node reachable through chains of
function-argument edges from those roots: a function-call node yields its
record followed by the scan of its own argument list, while an expression
that is not itself a function call (for example a comparison) yields nothing
and its operands are not scanned. -/
theorem C2_function_extractor :
    (∀ sl ft wc groups cte,
        ExtractFunctionsFromQueryNode (.selectNode sl ft wc groups cte) =
          ExtractFunctionsFromList sl ++ ExtractFunctionsFromExpression wc ++
            ExtractFunctionsFromList groups)
    ∧ (∀ a s f isOp dist ch,
        ExtractFunctionsFromExpression (.functionExpr a s f isOp dist ch) =
          ⟨f, if isOp then "operator" else if dist then "aggregate" else "scalar"⟩ ::
            ExtractFunctionsFromExprList ch)
    ∧ (∀ e, isFunctionExpr e = false → ExtractFunctionsFromExpression e = [])
    ∧ ExtractFunctionsFromQueryNode
        (.selectNode
          [.functionExpr "" "" "f" false false
            (.cons (.functionExpr "" "" "g" false false
              (.cons (.columnRef "" ["x"]) .nil)) .nil)]
          (.baseTable "" "t") .nullExpr [] .nil) =
        [⟨"f", "scalar"⟩, ⟨"g", "scalar"⟩] := by
  refine ⟨fun _ _ _ _ _ => rfl, fun _ _ _ _ _ _ => rfl, ?_, by decide⟩
  intro e he
  cases e <;> first
    | rfl
    | simp [isFunctionExpr] at he

/-- Witness for C2: the non-function arm applied at a concrete comparison
node, which indeed contributes no record. -/
theorem C2_witness :
    ExtractFunctionsFromExpression
        (.comparisonExpr "" .gt
          (.functionExpr "" "" "f" false false (.cons (.columnRef "" ["x"]) .nil))
          (.constantExpr "" "1")) = [] :=
  C2_function_extractor.2.2.1
    (.comparisonExpr "" .gt
      (.functionExpr "" "" "f" false false (.cons (.columnRef "" ["x"]) .nil))
      (.constantExpr "" "1")) (by decide)

/-- C5: `ExtractTablesFromTableRef` recurses into a JOIN's left side with
the inherited context label and into the right side with the label "JOIN";
hence a left-deep chain keeps the original context for all left-side tables,
and on the AST of `SELECT * FROM a JOIN b ON a.x=b.x` the records are table
`a` with context "FROM" followed by table `b` with context "JOIN". -/
theorem C5_join_contexts :
    (∀ left right ctx,
        ExtractTablesFromTableRef (.joinRef left right) ctx =
          ExtractTablesFromTableRef left ctx ++
            ExtractTablesFromTableRef right "JOIN")
    ∧ ExtractTablesFromQueryNode
        (.selectNode [.otherExpr "" "star"]
          (.joinRef (.baseTable "" "a") (.baseTable "" "b")) .nullExpr [] .nil) =
        [⟨"", "a", "FROM"⟩, ⟨"", "b", "JOIN"⟩]
    ∧ ExtractTablesFromTableRef
        (.joinRef (.joinRef (.baseTable "" "a") (.baseTable "" "b"))
          (.baseTable "" "c")) "FROM" =
        [⟨"", "a", "FROM"⟩, ⟨"", "b", "JOIN"⟩, ⟨"", "c", "JOIN"⟩] :=
  ⟨fun _ _ _ => rfl, by decide, by decide⟩

/-- C6: the WHERE extractor flattens AND/OR conjunctions transparently (both
branches recursed, no record for the conjunction node itself), emits exactly
one record per leaf comparison with the operator drawn from the fixed table
(unknown comparison kinds map to "?"), and on the AST of
`SELECT * FROM t WHERE x > 1 AND y = 2` returns exactly the record
(x, >, 1) followed by (y, =, 2). -/
theorem C6_where_extractor :
    (∀ render a isAnd children,
        ExtractWhereConditions render (.conjunctionExpr a isAnd children) =
          ExtractWhereFromList render children)
    ∧ (∀ render e rest,
        ExtractWhereFromList render (.cons e rest) =
          ExtractWhereConditions render e ++ ExtractWhereFromList render rest)
    ∧ (∀ render a ck la lnames ra rv,
        ExtractWhereConditions render
            (.comparisonExpr a ck (.columnRef la lnames) (.constantExpr ra rv)) =
          [⟨GetColumnName lnames, ComparisonTypeToOperator ck, rv⟩])
    ∧ (ComparisonTypeToOperator .eq = "=" ∧ ComparisonTypeToOperator .notEq = "!=" ∧
       ComparisonTypeToOperator .lt = "<" ∧ ComparisonTypeToOperator .gt = ">" ∧
       ComparisonTypeToOperator .le = "<=" ∧ ComparisonTypeToOperator .ge = ">=" ∧
       ComparisonTypeToOperator .isIn = "IN" ∧ ComparisonTypeToOperator .notIn = "NOT IN" ∧
       ComparisonTypeToOperator .otherComp = "?")
    ∧ (∀ render, ExtractWhereConditions render
        (.conjunctionExpr "" true
          (.cons (.comparisonExpr "" .gt (.columnRef "" ["x"]) (.constantExpr "" "1"))
            (.cons (.comparisonExpr "" .eq (.columnRef "" ["y"]) (.constantExpr "" "2"))
              .nil))) =
        [⟨"x", ">", "1"⟩, ⟨"y", "=", "2"⟩]) :=
  ⟨fun _ _ _ _ => rfl, fun _ _ _ => rfl, fun _ _ _ _ _ _ _ => rfl,
    by decide, fun _ => rfl⟩

theorem ExtractColumnNames_length (e : ParsedExpression) (i : Nat)
    (h : isNullExpr e = false) : (ExtractColumnNames e i).length = 1 := by
  cases e
  case nullExpr => exact absurd h (by decide)
  all_goals simp only [ExtractColumnNames]
  all_goals split <;> simp

theorem ParseColumnsLoop_length (sl : List ParsedExpression) :
    ∀ i : Nat, (∀ e ∈ sl, isNullExpr e = false) →
      (ParseColumnsLoop sl i).length = sl.length := by
  induction sl with
  | nil => intro i _; rfl
  | cons e rest ih =>
    intro i h
    have he : isNullExpr e = false := h e (by simp)
    have hr : ∀ x ∈ rest, isNullExpr x = false := fun x hx => h x (by simp [hx])
    simp [ParseColumnsLoop, ExtractColumnNames_length e i he, ih (i + 1) hr]
    omega

/-- C7: the column-projection extractor produces exactly one name per
SELECT-list item, in list order, choosing the explicit alias when present,
else the column name of a bare column reference, else the function name of
a call (without arguments), else the synthesized name "col" ++ index; and
on the AST of `SELECT a, b AS c, count(x) FROM t` the names are
["a", "c", "count"] in order. -/
theorem C7_column_names :
    (∀ e i, isNullExpr e = false → exprAlias e ≠ "" →
        ExtractColumnNames e i = [exprAlias e])
    ∧ (∀ names i, ExtractColumnNames (.columnRef "" names) i = [GetColumnName names])
    ∧ (∀ s f isOp dist ch i,
        ExtractColumnNames (.functionExpr "" s f isOp dist ch) i = [f])
    ∧ (∀ v i, ExtractColumnNames (.constantExpr "" v) i = ["col" ++ toString i])
    ∧ (∀ tag i, ExtractColumnNames (.otherExpr "" tag) i = ["col" ++ toString i])
    ∧ (∀ sl, (∀ e ∈ sl, isNullExpr e = false) →
        (ParseColumnsNames sl).length = sl.length)
    ∧ ParseColumnsNames
        [.columnRef "" ["a"], .columnRef "c" ["b"],
          .functionExpr "" "" "count" false false (.cons (.columnRef "" ["x"]) .nil)] =
        ["a", "c", "count"] := by
  refine ⟨?_, fun _ _ => rfl, fun _ _ _ _ _ _ => rfl, fun _ _ => rfl, fun _ _ => rfl,
    fun sl h => ParseColumnsLoop_length sl 0 h, by decide⟩
  intro e i hn ha
  cases e
  case nullExpr => exact absurd hn (by decide)
  all_goals simp only [ExtractColumnNames]
  all_goals rw [if_pos ha]

/-- Witness for C7: the alias wins for a concrete aliased column reference,
and a concrete two-item list yields exactly two names. -/
theorem C7_witness :
    ExtractColumnNames (.columnRef "z" ["b"]) 0 = [exprAlias (.columnRef "z" ["b"])]
    ∧ (ParseColumnsNames [.columnRef "" ["a"], .constantExpr "" "1"]).length =
        ([ParsedExpression.columnRef "" ["a"], .constantExpr "" "1"]).length :=
  ⟨C7_column_names.1 (.columnRef "z" ["b"]) 0 (by decide) (by decide),
    C7_column_names.2.2.2.2.2.1 [.columnRef "" ["a"], .constantExpr "" "1"] (by decide)⟩

/-!
Statement splitting (`parse_statements`, src/parser.cpp 201-267) and the
tokenizer wrapper (src/tokenizer.cpp 27-52).  The external full-grammar
parser `Parser::ParseQuery` and the external lexer `Parser::Tokenize` are
DuckDB collaborators; each is modelled as an explicit function argument
whose `Except` value stands for the exception channel of one call.
-/

/-- One output row of `parse_statements`: stmt_index, stmt_type, error,
param_count; `none` is a SQL NULL. -/
structure StmtRow where
  stmt_index : Nat
  stmt_type : Option String
  error : Option String
  param_count : Nat
deriving DecidableEq

/-- Embedding of `ParseStatementsBind` (src/parser.cpp 211-234): the
statement vector (each statement represented by its
`StatementTypeToString` rendering) and the captured error message.  On an
exception the statement vector is left empty and the message is stored; on
success the statements are moved in and the error stays empty. -/
def ParseStatementsBindData (parse : String → Except String (List String))
    (query : String) : List String × String :=
  match parse query with
  | .ok stmts => (stmts, "")
  | .error e => ([], e)

/-- The statement-row loop of `ParseStatementsFunc` starting at index `i`. -/
def StatementRows : List String → Nat → List StmtRow
  | [], _ => []
  | st :: rest, i => ⟨i, some st, none, 0⟩ :: StatementRows rest (i + 1)

/-- All rows `ParseStatementsFunc` (src/parser.cpp 240-267) emits across its
calls: a single error row when the bind captured a non-empty error, else
one row per parsed statement in source order. -/
def ParseStatementsRows (parse : String → Except String (List String))
    (query : String) : List StmtRow :=
  let bd := ParseStatementsBindData parse query
  if bd.2 ≠ "" then [⟨0, none, some bd.2, 0⟩]
  else StatementRows bd.1 0

theorem StatementRows_length (stmts : List String) :
    ∀ base : Nat, (StatementRows stmts base).length = stmts.length := by
  induction stmts with
  | nil => intro base; rfl
  | cons s rest ih => intro base; simp [StatementRows, ih (base + 1)]

theorem StatementRows_get (stmts : List String) :
    ∀ (base i : Nat) (st : String), stmts[i]? = some st →
      (StatementRows stmts base)[i]? = some ⟨base + i, some st, none, 0⟩ := by
  induction stmts with
  | nil => intro base i st h; simp at h
  | cons s rest ih =>
    intro base i st h
    cases i with
    | zero =>
      simp at h
      subst h
      simp [StatementRows]
    | succ j =>
      simp at h
      have hj := ih (base + 1) j st h
      simp only [StatementRows, List.getElem?_cons_succ]
      rw [hj]
      have : base + 1 + j = base + (j + 1) := by omega
      rw [this]

theorem StatementRows_error_none (stmts : List String) :
    ∀ base : Nat, ∀ r ∈ StatementRows stmts base, r.error = none := by
  induction stmts with
  | nil => intro base r hr; simp [StatementRows] at hr
  | cons s rest ih =>
    intro base r hr
    simp only [StatementRows, List.mem_cons] at hr
    rcases hr with rfl | hr
    · rfl
    · exact ih (base + 1) r hr

/-- C4: `split` is all-or-nothing.  When the external parser succeeds,
`parse_statements` emits one row per top-level statement in source order
(row i carries index i and statement i's type) and every row's error field
is NULL; when the parser fails with a non-empty message, it emits exactly
one row carrying that message and no statement rows at all. -/
theorem C4_split_all_or_nothing
    (parse : String → Except String (List String)) (query : String) :
    (∀ stmts, parse query = .ok stmts →
        (ParseStatementsRows parse query).length = stmts.length ∧
        (∀ (i : Nat) (st : String), stmts[i]? = some st →
          (ParseStatementsRows parse query)[i]? = some ⟨i, some st, none, 0⟩) ∧
        (∀ r ∈ ParseStatementsRows parse query, r.error = none))
    ∧ (∀ e, parse query = .error e → e ≠ "" →
        ParseStatementsRows parse query = [⟨0, none, some e, 0⟩]) := by
  constructor
  · intro stmts hok
    have hrows : ParseStatementsRows parse query = StatementRows stmts 0 := by
      simp [ParseStatementsRows, ParseStatementsBindData, hok]
    refine ⟨?_, ?_, ?_⟩
    · rw [hrows]; exact StatementRows_length stmts 0
    · intro i st hst
      rw [hrows]
      have := StatementRows_get stmts 0 i st hst
      simpa using this
    · intro r hr
      rw [hrows] at hr
      exact StatementRows_error_none stmts 0 r hr
  · intro e herr hne
    simp [ParseStatementsRows, ParseStatementsBindData, herr, hne]

/-- Witness for C4: a successful two-statement parse yields two rows, and a
failing parse with a concrete message yields exactly the single error row. -/
theorem C4_witness :
    (ParseStatementsRows (fun _ => Except.ok ["SELECT", "INSERT"]) "q").length =
        (["SELECT", "INSERT"] : List String).length
    ∧ ParseStatementsRows (fun _ => Except.error "Parser Error: syntax error") "q" =
        [⟨0, none, some "Parser Error: syntax error", 0⟩] :=
  ⟨((C4_split_all_or_nothing (fun _ => Except.ok ["SELECT", "INSERT"]) "q").1
      ["SELECT", "INSERT"] rfl).1,
    (C4_split_all_or_nothing (fun _ => Except.error "Parser Error: syntax error") "q").2
      "Parser Error: syntax error" rfl (by decide)⟩

/-- A token of the external `Parser::Tokenize` (duckdb `SimplifiedToken`):
its category enum value and its byte offset. -/
structure SimplifiedToken where
  ttype : Nat
  start : Nat
deriving DecidableEq

/-- A token of the C wrapper (struct `Token`, src/tokenizer.cpp 17-20). -/
structure CToken where
  ttype : Nat
  start : Nat
deriving DecidableEq

/-- Result struct of `tokenize_sql_impl` (src/tokenizer.cpp 22-25). -/
structure TokenizeResult where
  tokens : List CToken
  count : Nat
deriving DecidableEq

/-- Embedding of `tokenize_sql_impl` (src/tokenizer.cpp 27-52).  A null
`query` pointer is `none`; the external lexer is an explicit argument whose
`Except` value stands for its exception channel; the
`static_cast<TokenType>(static_cast<uint8_t>(...))` of each token type is
reduction modulo 256.  The `catch (...)` arm resets the result to the empty
token list. -/
def tokenize_sql_impl
    (tokenizeExternal : String → Except String (List SimplifiedToken))
    (query : Option String) : TokenizeResult :=
  match query with
  | none => ⟨[], 0⟩
  | some q =>
      match tokenizeExternal q with
      | .ok ts => ⟨ts.map (fun t => ⟨t.ttype % 256, t.start⟩), ts.length⟩
      | .error _ => ⟨[], 0⟩

/-- Embedding of `TokenTypeToString` (src/parser.cpp 60-70): the six known
`SimplifiedTokenType` values 0..5 map to their category names and every
other value falls through the `default` arm to "ERROR". -/
def TokenTypeToString (t : Nat) : String :=
  if t = 0 then "IDENTIFIER"
  else if t = 1 then "NUMERIC_CONSTANT"
  else if t = 2 then "STRING_CONSTANT"
  else if t = 3 then "OPERATOR"
  else if t = 4 then "KEYWORD"
  else if t = 5 then "COMMENT"
  else "ERROR"

/-- C9: tokenization is total and never fails.  For every external lexer
outcome and every query (a null pointer included), `tokenize_sql_impl`
returns a well-formed, possibly empty token sequence whose count matches
the token list; an external exception produces the empty sequence instead
of propagating; and any token category outside the six known ones is
rendered as "ERROR", not as a failure. -/
theorem C9_tokenize_total
    (tokenizeExternal : String → Except String (List SimplifiedToken))
    (query : Option String) :
    ((tokenize_sql_impl tokenizeExternal query).count =
        (tokenize_sql_impl tokenizeExternal query).tokens.length)
    ∧ (∀ q e, query = some q → tokenizeExternal q = .error e →
        tokenize_sql_impl tokenizeExternal query = ⟨[], 0⟩)
    ∧ (∀ t : Nat, 6 ≤ t → TokenTypeToString t = "ERROR") := by
  refine ⟨?_, ?_, ?_⟩
  · match query with
    | none => rfl
    | some q =>
      match hx : tokenizeExternal q with
      | .ok ts => simp [tokenize_sql_impl, hx]
      | .error e => simp [tokenize_sql_impl, hx]
  · intro q e hq he
    subst hq
    simp [tokenize_sql_impl, he]
  · intro t ht
    have h0 : t ≠ 0 := by omega
    have h1 : t ≠ 1 := by omega
    have h2 : t ≠ 2 := by omega
    have h3 : t ≠ 3 := by omega
    have h4 : t ≠ 4 := by omega
    have h5 : t ≠ 5 := by omega
    simp [TokenTypeToString, h0, h1, h2, h3, h4, h5]

/-- Witness for C9: a lexer that throws yields the empty result for a
concrete query, and category value 6 (TOKEN_ERROR) renders as "ERROR". -/
theorem C9_witness :
    tokenize_sql_impl (fun _ => Except.error "boom") (some "SELECT") = ⟨[], 0⟩
    ∧ TokenTypeToString 6 = "ERROR" :=
  ⟨(C9_tokenize_total (fun _ => Except.error "boom") (some "SELECT")).2.1
      "SELECT" "boom" rfl rfl,
    (C9_tokenize_total (fun _ => Except.error "boom") (some "SELECT")).2.2 6
      (by decide)⟩


/-!
Type-signature serialization (`SerializeLogicalType`, src/parser.c 611-704),
embedded WITH its fixed-size buffers.  The C function writes into a caller
buffer of `buf_size` bytes (1024 at the two call sites, 512 for list/array
children, 256 for map/struct/union children) through
`offset += snprintf(buf + offset, buf_size - offset, ...)`: each `snprintf`
lays its formatted text at the running would-be offset, keeps only the part
landing in the first `buf_size - 1` bytes, and returns the full formatted
length, which is added to `offset`.  Since every piece is laid out in order
at its would-be offset, the resulting C string is the concatenation of the
ideal pieces truncated to `buf_size - 1` characters, and the running
would-be offset equals the ideal length so far.  The STRUCT/UNION loops
stop as soon as the would-be offset reaches `buf_size - 10`, the ENUM loop
as soon as it reaches `buf_size - 20`, dropping the remaining children
entirely; the ENUM `+K more` suffix is still printed with
`K = dict_size - 10` regardless of how many values the loop managed to
emit.  (A would-be offset beyond `buf_size` makes the C size argument
underflow — an out-of-bounds write; the model keeps the truncation
semantics there.)  Truncation is modelled per character; all strings the
program handles here are single-byte characters.
-/

/-- The `duckdb_type` ids that reach the `default` arm of
`SerializeLogicalType`, named by `TypeToString` (src/parser.c 75-150);
`unknown` is every id outside the enum, which `TypeToString` maps through
its own `default` arm. -/
inductive DuckType where
  | boolean
  | tinyint
  | smallint
  | integer
  | bigint
  | utinyint
  | usmallint
  | uinteger
  | ubigint
  | float
  | double
  | timestamp
  | date
  | time
  | interval
  | hugeint
  | uhugeint
  | varchar
  | blob
  | timestampS
  | timestampMs
  | timestampNs
  | uuid
  | bit
  | timeTz
  | timestampTz
  | anyType
  | sqlnull
  | unknown
deriving DecidableEq

/-- Embedding of `TypeToString` (src/parser.c 75-150) on the non-nested
type ids. -/
def TypeToString : DuckType → String
  | .boolean => "BOOLEAN"
  | .tinyint => "TINYINT"
  | .smallint => "SMALLINT"
  | .integer => "INTEGER"
  | .bigint => "BIGINT"
  | .utinyint => "UTINYINT"
  | .usmallint => "USMALLINT"
  | .uinteger => "UINTEGER"
  | .ubigint => "UBIGINT"
  | .float => "FLOAT"
  | .double => "DOUBLE"
  | .timestamp => "TIMESTAMP"
  | .date => "DATE"
  | .time => "TIME"
  | .interval => "INTERVAL"
  | .hugeint => "HUGEINT"
  | .uhugeint => "UHUGEINT"
  | .varchar => "VARCHAR"
  | .blob => "BLOB"
  | .timestampS => "TIMESTAMP_S"
  | .timestampMs => "TIMESTAMP_MS"
  | .timestampNs => "TIMESTAMP_NS"
  | .uuid => "UUID"
  | .bit => "BIT"
  | .timeTz => "TIME_TZ"
  | .timestampTz => "TIMESTAMP_TZ"
  | .anyType => "ANY"
  | .sqlnull => "SQLNULL"
  | .unknown => "UNKNOWN"

mutual
/-- Embedding of `duckdb_logical_type` as consumed by
`SerializeLogicalType`: the seven structured kinds carry their queried
components (decimal width/scale, list/array child, map key/value,
struct/union name-type children in declared order, enum dictionary
values), and `baseType` carries the id of any other type. -/
inductive LogicalType where
  | decimalType (width scale : Nat)
  | listType (child : LogicalType)
  | arrayType (child : LogicalType) (size : Nat)
  | mapType (key value : LogicalType)
  | structType (fields : FieldList)
  | unionType (members : FieldList)
  | enumType (values : List String)
  | baseType (t : DuckType)

/-- The name-type children of a struct or union, in declared order. -/
inductive FieldList where
  | nil
  | cons (name : String) (t : LogicalType) (rest : FieldList)
end

/-- The NUL-terminated content of a `buf_size`-byte buffer filled by
in-order `snprintf` writes of an ideal string: its first `n` characters,
`n` standing for `buf_size - 1`. -/
def strTake (s : String) (n : Nat) : String := String.mk (s.data.take n)

/-- A single-quote string, built from the character literal so the source
file needs no quote character inside a string literal. -/
def squote : String := String.mk ['\'']

/-- The quoted enum values after the first, each preceded by the `", "`
that the loop prints when `i > 0`. -/
def enumRest : List String → String
  | [] => ""
  | v :: rest => ", " ++ squote ++ v ++ squote ++ enumRest rest

/-- The `ENUM('v1', 'v2', ...)` value list as the spec states it. -/
def SerializeEnumValues : List String → String
  | [] => ""
  | v :: rest => squote ++ v ++ squote ++ enumRest rest

mutual
/-- The rendering rules exactly as the spec states them, with no buffer
bounds; the comparison target for the refinement below. -/
def SpecSerializeType : LogicalType → String
  | .decimalType w s => "DECIMAL(" ++ toString w ++ "," ++ toString s ++ ")"
  | .listType c => SpecSerializeType c ++ "[]"
  | .arrayType c n => SpecSerializeType c ++ "[" ++ toString n ++ "]"
  | .mapType k v => "MAP(" ++ SpecSerializeType k ++ ", " ++ SpecSerializeType v ++ ")"
  | .structType fields => "STRUCT(" ++ SpecSerializeFields fields ++ ")"
  | .unionType members => "UNION(" ++ SpecSerializeFields members ++ ")"
  | .enumType values =>
      "ENUM(" ++ SerializeEnumValues (values.take 10) ++
        (if values.length > 10
          then ", ... +" ++ toString (values.length - 10) ++ " more"
          else "") ++ ")"
  | .baseType t => TypeToString t

/-- The unbounded `name type, name type, ...` field rendering. -/
def SpecSerializeFields : FieldList → String
  | .nil => ""
  | .cons name t rest => name ++ " " ++ SpecSerializeType t ++ SpecFieldsRest rest

/-- The fields after the first, each preceded by the `", "` separator the
loop prints when `i > 0`. -/
def SpecFieldsRest : FieldList → String
  | .nil => ""
  | .cons name t rest => ", " ++ name ++ " " ++ SpecSerializeType t ++ SpecFieldsRest rest
end

/-- The ENUM value loop of `SerializeLogicalType` (src/parser.c 688-693):
before each iteration the C `for` condition requires `i < dict_size`,
`i < 10`, and the running would-be offset (`acc.length`) below
`buf_size - 20`; the body prints `", "` when `i > 0` and then the quoted
value. -/
def enumValuesLoop : List String → Nat → String → Nat → String
  | [], _, acc, _ => acc
  | v :: rest, i, acc, bufSize =>
      if i < 10 ∧ acc.length < bufSize - 20 then
        enumValuesLoop rest (i + 1)
          ((if i = 0 then acc else acc ++ ", ") ++ squote ++ v ++ squote) bufSize
      else acc

mutual
/-- Embedding of `SerializeLogicalType` (src/parser.c 611-704) with its
buffers: the result is the buffer content, i.e. the ideal pieces truncated
to `bufSize - 1` characters; recursive children are first rendered into
their own 512-byte (list/array) or 256-byte (map/struct/union) buffers and
the truncated content is spliced in. -/
def SerializeLogicalType : LogicalType → Nat → String
  | .decimalType w s, bufSize =>
      strTake ("DECIMAL(" ++ toString w ++ "," ++ toString s ++ ")") (bufSize - 1)
  | .listType c, bufSize =>
      strTake (SerializeLogicalType c 512 ++ "[]") (bufSize - 1)
  | .arrayType c n, bufSize =>
      strTake (SerializeLogicalType c 512 ++ "[" ++ toString n ++ "]") (bufSize - 1)
  | .mapType k v, bufSize =>
      strTake ("MAP(" ++ SerializeLogicalType k 256 ++ ", " ++
        SerializeLogicalType v 256 ++ ")") (bufSize - 1)
  | .structType fields, bufSize =>
      strTake (SerializeChildLoop fields "STRUCT(" true bufSize ++ ")") (bufSize - 1)
  | .unionType members, bufSize =>
      strTake (SerializeChildLoop members "UNION(" true bufSize ++ ")") (bufSize - 1)
  | .enumType values, bufSize =>
      strTake (enumValuesLoop values 0 "ENUM(" bufSize ++
        (if values.length > 10
          then ", ... +" ++ toString (values.length - 10) ++ " more"
          else "") ++ ")") (bufSize - 1)
  | .baseType t, bufSize => strTake (TypeToString t) (bufSize - 1)

/-- The STRUCT/UNION child loop (src/parser.c 654-663 and 671-680): before
each iteration the C `for` condition requires the running would-be offset
(`acc.length`) below `buf_size - 10`; the body prints `", "` when `i > 0`
(`first` is `i = 0`), the child name, a space, and the child rendered into
its own 256-byte buffer. -/
def SerializeChildLoop : FieldList → String → Bool → Nat → String
  | .nil, acc, _, _ => acc
  | .cons name t rest, acc, first, bufSize =>
      if acc.length < bufSize - 10 then
        SerializeChildLoop rest
          (cond first acc (acc ++ ", ") ++ name ++ " " ++ SerializeLogicalType t 256)
          false bufSize
      else acc
end

mutual
/-- Structural size of a type descriptor, the measure for the refinement
induction. -/
def ltSize : LogicalType → Nat
  | .decimalType .. => 1
  | .listType c => ltSize c + 1
  | .arrayType c _ => ltSize c + 1
  | .mapType k v => ltSize k + ltSize v + 1
  | .structType fs => flSize fs + 1
  | .unionType ms => flSize ms + 1
  | .enumType _ => 1
  | .baseType _ => 1

/-- Structural size of a field list. -/
def flSize : FieldList → Nat
  | .nil => 0
  | .cons _ t rest => ltSize t + flSize rest + 1
end

mutual
/-- Whether a descriptor's renderings fit the fixed snprintf buffers: its
own ideal rendering stays clear of this buffer's truncation point and of
the loop guards (10 spare bytes for STRUCT/UNION, 20 for ENUM), and every
nested child fits the 512- or 256-byte buffer it is rendered into. -/
def fitsIn : LogicalType → Nat → Bool
  | .decimalType w s, b => ((SpecSerializeType (.decimalType w s)).length < b : Bool)
  | .listType c, b =>
      fitsIn c 512 && ((SpecSerializeType (.listType c)).length < b : Bool)
  | .arrayType c n, b =>
      fitsIn c 512 && ((SpecSerializeType (.arrayType c n)).length < b : Bool)
  | .mapType k v, b =>
      fitsIn k 256 && fitsIn v 256 &&
        ((SpecSerializeType (.mapType k v)).length < b : Bool)
  | .structType fs, b =>
      fitsFields fs && ((SpecSerializeType (.structType fs)).length + 10 ≤ b : Bool)
  | .unionType ms, b =>
      fitsFields ms && ((SpecSerializeType (.unionType ms)).length + 10 ≤ b : Bool)
  | .enumType vs, b => ((SpecSerializeType (.enumType vs)).length + 20 ≤ b : Bool)
  | .baseType t, b => ((TypeToString t).length < b : Bool)

/-- Whether every field's type fits the 256-byte child buffer. -/
def fitsFields : FieldList → Bool
  | .nil => true
  | .cons _ t rest => fitsIn t 256 && fitsFields rest
end

example :
    SerializeLogicalType (.structType (.cons "a" (.baseType .integer)
      (.cons "b" (.baseType .varchar) .nil))) 1024 =
      "STRUCT(a INTEGER, b VARCHAR)" := by decide
example :
    SerializeLogicalType (.enumType ["x", "y"]) 1024 =
      "ENUM(" ++ squote ++ "x" ++ squote ++ ", " ++ squote ++ "y" ++ squote ++ ")" := by
  decide
example : fitsIn (.listType (.baseType .integer)) 1024 = true := by decide

theorem strTake_of_le {s : String} {n : Nat} (h : s.length ≤ n) : strTake s n = s :=
  congrArg String.mk (List.take_of_length_le h)

theorem ltSize_pos (t : LogicalType) : 1 ≤ ltSize t := by
  cases t <;> simp [ltSize]

/-- Unrolling the ENUM loop from a non-first iteration `i`: while the
running would-be offset stays below the guard, the loop emits exactly the
remaining `10 - i` values, each preceded by its separator. -/
theorem enumValuesLoop_rest : ∀ (vs : List String) (i : Nat) (acc : String) (b : Nat),
    1 ≤ i → i ≤ 10 →
    acc.length + (enumRest (vs.take (10 - i))).length + 21 ≤ b →
    enumValuesLoop vs i acc b = acc ++ enumRest (vs.take (10 - i)) := by
  intro vs
  induction vs with
  | nil =>
    intro i acc b _ _ _
    simp [enumValuesLoop, enumRest, String.append_empty]
  | cons v rest ih =>
    intro i acc b h1 h10 hb
    by_cases hi : i < 10
    · have hstep : 10 - i = (10 - (i + 1)) + 1 := by omega
      rw [hstep] at hb ⊢
      simp only [List.take_succ_cons] at hb ⊢
      simp only [enumRest, String.length_append] at hb
      have hguard : acc.length < b - 20 := by omega
      have hnz : ¬ i = 0 := by omega
      simp only [enumValuesLoop]
      rw [if_pos ⟨hi, hguard⟩, if_neg hnz]
      rw [ih (i + 1) (acc ++ ", " ++ squote ++ v ++ squote) b (by omega) (by omega)
        (by simp only [String.length_append]; omega)]
      simp [enumRest, String.append_assoc]
    · have hieq : i = 10 := by omega
      subst hieq
      simp only [Nat.sub_self, List.take_zero] at hb ⊢
      simp [enumValuesLoop, enumRest, String.append_empty]

/-- The ENUM loop started at `i = 0` with the `"ENUM("` prefix emits
exactly the first 10 quoted values whenever the ideal rendering stays clear
of the guard. -/
theorem enumValuesLoop_main (vs : List String) (b : Nat)
    (hb : (SerializeEnumValues (vs.take 10)).length + 26 ≤ b) :
    enumValuesLoop vs 0 "ENUM(" b = "ENUM(" ++ SerializeEnumValues (vs.take 10) := by
  cases vs with
  | nil => simp [enumValuesLoop, SerializeEnumValues, String.append_empty]
  | cons v rest =>
    simp only [List.take_succ_cons] at hb ⊢
    simp only [SerializeEnumValues, String.length_append] at hb
    have e5 : ("ENUM(" : String).length = 5 := rfl
    have hguard : ("ENUM(" : String).length < b - 20 := by rw [e5]; omega
    simp only [enumValuesLoop]
    rw [if_pos ⟨by omega, hguard⟩]
    simp only [if_true]
    rw [enumValuesLoop_rest rest 1 ("ENUM(" ++ squote ++ v ++ squote) b (le_refl 1)
      (by omega) (by simp [String.length_append, e5]; omega)]
    simp [SerializeEnumValues, String.append_assoc]

/-- The refinement induction: below any size bound, a descriptor that fits
its buffers serializes to exactly the spec rendering, and the STRUCT/UNION
child loop (from a non-first or first iteration) emits exactly the
remaining ideal fields. -/
theorem serializeFitsAux : ∀ n : Nat,
    (∀ (t : LogicalType) (b : Nat), ltSize t ≤ n → fitsIn t b = true →
        SerializeLogicalType t b = SpecSerializeType t)
    ∧ (∀ (fs : FieldList) (acc : String) (b : Nat), flSize fs ≤ n →
        fitsFields fs = true →
        acc.length + (SpecFieldsRest fs).length + 11 ≤ b →
        SerializeChildLoop fs acc false b = acc ++ SpecFieldsRest fs)
    ∧ (∀ (fs : FieldList) (acc : String) (b : Nat), flSize fs ≤ n →
        fitsFields fs = true →
        acc.length + (SpecSerializeFields fs).length + 11 ≤ b →
        SerializeChildLoop fs acc true b = acc ++ SpecSerializeFields fs) := by
  intro n
  induction n with
  | zero =>
    refine ⟨?_, ?_, ?_⟩
    · intro t b hsz _
      have := ltSize_pos t
      omega
    · intro fs acc b hsz _ _
      cases fs with
      | nil => simp [SerializeChildLoop, SpecFieldsRest, String.append_empty]
      | cons name t rest =>
        simp only [flSize] at hsz
        omega
    · intro fs acc b hsz _ _
      cases fs with
      | nil => simp [SerializeChildLoop, SpecSerializeFields, String.append_empty]
      | cons name t rest =>
        simp only [flSize] at hsz
        omega
  | succ n ih =>
    obtain ⟨ih1, ih2, ih3⟩ := ih
    refine ⟨?_, ?_, ?_⟩
    · intro t b hsz hfit
      cases t with
      | decimalType w s =>
        simp only [fitsIn, decide_eq_true_eq] at hfit
        simp only [SpecSerializeType] at hfit
        simp only [SerializeLogicalType, SpecSerializeType]
        exact strTake_of_le (by omega)
      | baseType dt =>
        simp only [fitsIn, decide_eq_true_eq] at hfit
        simp only [SerializeLogicalType, SpecSerializeType]
        exact strTake_of_le (by omega)
      | listType c =>
        simp only [fitsIn, Bool.and_eq_true, decide_eq_true_eq] at hfit
        obtain ⟨hc, hlen⟩ := hfit
        have hszc : ltSize c ≤ n := by simp only [ltSize] at hsz; omega
        have hsc := ih1 c 512 hszc hc
        simp only [SpecSerializeType] at hlen
        simp only [SerializeLogicalType, hsc, SpecSerializeType]
        exact strTake_of_le (by omega)
      | arrayType c sz =>
        simp only [fitsIn, Bool.and_eq_true, decide_eq_true_eq] at hfit
        obtain ⟨hc, hlen⟩ := hfit
        have hszc : ltSize c ≤ n := by simp only [ltSize] at hsz; omega
        have hsc := ih1 c 512 hszc hc
        simp only [SpecSerializeType] at hlen
        simp only [SerializeLogicalType, hsc, SpecSerializeType]
        exact strTake_of_le (by omega)
      | mapType k v =>
        simp only [fitsIn, Bool.and_eq_true, decide_eq_true_eq] at hfit
        obtain ⟨⟨hk, hv⟩, hlen⟩ := hfit
        have hszk : ltSize k ≤ n := by simp only [ltSize] at hsz; omega
        have hszv : ltSize v ≤ n := by simp only [ltSize] at hsz; omega
        have hsk := ih1 k 256 hszk hk
        have hsv := ih1 v 256 hszv hv
        simp only [SpecSerializeType] at hlen
        simp only [SerializeLogicalType, hsk, hsv, SpecSerializeType]
        exact strTake_of_le (by omega)
      | structType fs =>
        simp only [fitsIn, Bool.and_eq_true, decide_eq_true_eq] at hfit
        obtain ⟨hfs, hlen⟩ := hfit
        have hszf : flSize fs ≤ n := by simp only [ltSize] at hsz; omega
        have e7 : ("STRUCT(" : String).length = 7 := rfl
        have e1 : (")" : String).length = 1 := rfl
        simp only [SpecSerializeType, String.length_append, e7, e1] at hlen
        have hloop := ih3 fs "STRUCT(" b hszf hfs (by rw [e7]; omega)
        simp only [SerializeLogicalType, hloop, SpecSerializeType]
        exact strTake_of_le (by simp only [String.length_append, e7, e1]; omega)
      | unionType ms =>
        simp only [fitsIn, Bool.and_eq_true, decide_eq_true_eq] at hfit
        obtain ⟨hms, hlen⟩ := hfit
        have hszm : flSize ms ≤ n := by simp only [ltSize] at hsz; omega
        have e6 : ("UNION(" : String).length = 6 := rfl
        have e1 : (")" : String).length = 1 := rfl
        simp only [SpecSerializeType, String.length_append, e6, e1] at hlen
        have hloop := ih3 ms "UNION(" b hszm hms (by rw [e6]; omega)
        simp only [SerializeLogicalType, hloop, SpecSerializeType]
        exact strTake_of_le (by simp only [String.length_append, e6, e1]; omega)
      | enumType vs =>
        simp only [fitsIn, decide_eq_true_eq] at hfit
        have e5 : ("ENUM(" : String).length = 5 := rfl
        have e1 : (")" : String).length = 1 := rfl
        simp only [SpecSerializeType, String.length_append, e5, e1] at hfit
        have hmain := enumValuesLoop_main vs b (by omega)
        simp only [SerializeLogicalType, hmain, SpecSerializeType]
        exact strTake_of_le (by simp only [String.length_append, e5, e1]; omega)
    · intro fs acc b hsz hfit hb
      cases fs with
      | nil => simp [SerializeChildLoop, SpecFieldsRest, String.append_empty]
      | cons name t rest =>
        simp only [fitsFields, Bool.and_eq_true] at hfit
        obtain ⟨ht, hrest⟩ := hfit
        have hszt : ltSize t ≤ n := by simp only [flSize] at hsz; omega
        have hszr : flSize rest ≤ n := by simp only [flSize] at hsz; omega
        have hst := ih1 t 256 hszt ht
        simp only [SpecFieldsRest, String.length_append] at hb
        have hguard : acc.length < b - 10 := by omega
        simp only [SerializeChildLoop]
        rw [if_pos hguard]
        simp only [Bool.cond_false, hst]
        rw [ih2 rest ((acc ++ ", ") ++ name ++ " " ++ SpecSerializeType t) b hszr hrest
          (by simp only [String.length_append]; omega)]
        simp only [SpecFieldsRest]
        simp [String.append_assoc]
    · intro fs acc b hsz hfit hb
      cases fs with
      | nil => simp [SerializeChildLoop, SpecSerializeFields, String.append_empty]
      | cons name t rest =>
        simp only [fitsFields, Bool.and_eq_true] at hfit
        obtain ⟨ht, hrest⟩ := hfit
        have hszt : ltSize t ≤ n := by simp only [flSize] at hsz; omega
        have hszr : flSize rest ≤ n := by simp only [flSize] at hsz; omega
        have hst := ih1 t 256 hszt ht
        simp only [SpecSerializeFields, String.length_append] at hb
        have hguard : acc.length < b - 10 := by omega
        simp only [SerializeChildLoop]
        rw [if_pos hguard]
        simp only [Bool.cond_true, hst]
        rw [ih2 rest (acc ++ name ++ " " ++ SpecSerializeType t) b hszr hrest
          (by simp only [String.length_append]; omega)]
        simp only [SpecSerializeFields]
        simp [String.append_assoc]

set_option maxRecDepth 8192

/-- C8 counterexample: the claim's rendering rules fail once a rendering
overflows a fixed snprintf buffer.  With a 300-character struct field name,
the struct rendered into the 256-byte map-key buffer is truncated to 255
characters, so the C function's MAP output at the 1024-byte top-level
buffer is not the stated `MAP(<k>, <v>)` of the full renderings. -/
theorem C8_counterexample :
    SerializeLogicalType
        (.mapType (.structType (.cons (String.mk (List.replicate 300 'a'))
          (.baseType .integer) .nil)) (.baseType .integer)) 1024 ≠
      SpecSerializeType
        (.mapType (.structType (.cons (String.mk (List.replicate 300 'a'))
          (.baseType .integer) .nil)) (.baseType .integer)) := by decide

/-- C8 (amended): on every type descriptor that fits the fixed snprintf
buffers (its own rendering clear of this buffer's truncation point and of
the 10/20-byte loop guards, every nested child fitting its 512- or
256-byte buffer), `SerializeLogicalType` renders exactly by the stated
rules: DECIMAL(width,scale), child[] for LIST, child[n] for ARRAY,
MAP(k, v), STRUCT/UNION as the parenthesized name-type pairs in declared
order, the base name for any other type, and an ENUM showing at most its
first 10 dictionary values with a ", ... +K more" suffix exactly when the
dictionary holds more than 10 values, K being the number omitted.  For
larger descriptors the output is truncated and fields or values are
dropped (see the counterexample). -/
theorem C8_serialize_type :
    (∀ (t : LogicalType) (b : Nat), fitsIn t b = true →
        SerializeLogicalType t b = SpecSerializeType t)
    ∧ (∀ w s, SpecSerializeType (.decimalType w s) =
        "DECIMAL(" ++ toString w ++ "," ++ toString s ++ ")")
    ∧ (∀ c, SpecSerializeType (.listType c) = SpecSerializeType c ++ "[]")
    ∧ (∀ c n, SpecSerializeType (.arrayType c n) =
        SpecSerializeType c ++ "[" ++ toString n ++ "]")
    ∧ (∀ k v, SpecSerializeType (.mapType k v) =
        "MAP(" ++ SpecSerializeType k ++ ", " ++ SpecSerializeType v ++ ")")
    ∧ (∀ fs, SpecSerializeType (.structType fs) =
        "STRUCT(" ++ SpecSerializeFields fs ++ ")")
    ∧ (∀ ms, SpecSerializeType (.unionType ms) =
        "UNION(" ++ SpecSerializeFields ms ++ ")")
    ∧ (∀ t, SpecSerializeType (.baseType t) = TypeToString t)
    ∧ (∀ vs : List String, vs.length ≤ 10 →
        SpecSerializeType (.enumType vs) = "ENUM(" ++ SerializeEnumValues vs ++ ")")
    ∧ (∀ vs : List String, vs.length > 10 →
        SpecSerializeType (.enumType vs) =
          "ENUM(" ++ SerializeEnumValues (vs.take 10) ++
            (", ... +" ++ toString (vs.length - 10) ++ " more") ++ ")")
    ∧ SerializeLogicalType (.listType (.baseType .integer)) 1024 = "INTEGER[]"
    ∧ SerializeLogicalType (.mapType (.baseType .varchar) (.baseType .integer)) 1024 =
        "MAP(VARCHAR, INTEGER)" := by
  refine ⟨fun t b h => (serializeFitsAux (ltSize t)).1 t b le_rfl h,
    fun _ _ => rfl, fun _ => rfl, fun _ _ => rfl, fun _ _ => rfl, fun _ => rfl,
    fun _ => rfl, fun _ => rfl, ?_, ?_, by decide, by decide⟩
  · intro vs h
    have hnot : ¬ vs.length > 10 := by omega
    simp [SpecSerializeType, hnot, List.take_of_length_le h, String.append_empty]
  · intro vs h
    simp [SpecSerializeType, h]

/-- Witness for C8: the refinement applied at a concrete fitting descriptor,
and the two ENUM rules at concrete dictionaries of sizes 2 and 12. -/
theorem C8_witness :
    SerializeLogicalType (.listType (.baseType .integer)) 1024 =
        SpecSerializeType (.listType (.baseType .integer))
    ∧ SpecSerializeType (.enumType ["a", "b"]) =
        "ENUM(" ++ SerializeEnumValues ["a", "b"] ++ ")"
    ∧ SpecSerializeType
        (.enumType ["a", "b", "c", "d", "e", "f", "g", "h", "i", "j", "k", "l"]) =
        "ENUM(" ++ SerializeEnumValues
            ((["a", "b", "c", "d", "e", "f", "g", "h", "i", "j", "k", "l"] :
              List String).take 10) ++
          (", ... +" ++ toString
            ((["a", "b", "c", "d", "e", "f", "g", "h", "i", "j", "k", "l"] :
              List String).length - 10) ++ " more") ++ ")" :=
  ⟨C8_serialize_type.1 (.listType (.baseType .integer)) 1024 (by decide),
    C8_serialize_type.2.2.2.2.2.2.2.2.1 ["a", "b"] (by decide),
    C8_serialize_type.2.2.2.2.2.2.2.2.2.1
      ["a", "b", "c", "d", "e", "f", "g", "h", "i", "j", "k", "l"] (by decide)⟩
